import Mathlib

/-!
Verification of the column-lineage extractor in `view_parser.py`.

The program reads SQL text, parses it with an external SQL library into an
abstract syntax tree, and walks that tree.  We embed the AST shapes the
program consumes (table references with optional multi-part qualification
and optional alias, join clauses, `SELECT` nodes with their output
expression lists, column references with optional qualifier, literal and
`NULL` nodes, `CREATE` statements whose body is a single `SELECT` or a
`UNION` of `SELECT`s) and translate the four functions
`get_full_table_name`, `get_source_tables`, `process_select_expression`
and `extract_column_lineage` over them.

Python `dict`s preserve insertion order and overwrite values in place, so
the alias map is an association list with in-place-update insert.
`pandas` post-processing (`notna` filter, `drop_duplicates`, `fillna`,
`sort_values`) is modelled step by step on lists of records.
-/

/-- A table reference as read by the program: the optional dotted
qualification prefix (`args['db']`, a single identifier or a `Dot` chain,
kept here in source order), the table identifier itself (`args['this']`)
and the optional alias. -/
structure TableExpr where
  db : List String
  this : String
  tblAlias : Option String
deriving DecidableEq, Repr

/-- A join clause; the program only looks at `join.this` and skips joins
whose source is not a plain table (e.g. a subquery), which we model as
`none`. -/
structure JoinExpr where
  this : Option TableExpr
deriving DecidableEq, Repr

/-- Scalar expressions appearing in a `SELECT` output list: column
references carry their name and their qualifier text (`col.table`, with
`""` meaning "no qualifier", matching the falsy empty string the library
returns), literals carry their SQL text, `binOp` covers compound
expressions containing several column references, and `aliasEx` is an
explicit output alias. -/
inductive Expr where
  | column (name : String) (tbl : String)
  | lit (text : String)
  | nullEx
  | aliasEx (inner : Expr) (name : String)
  | binOp (op : String) (lhs rhs : Expr)
deriving DecidableEq, Repr

/-- `expr.sql()`: the textual rendering of an expression, used as the
output column name when no alias is present. -/
def Expr.sqlText : Expr → String
  | .column name tbl => if tbl = "" then name else tbl ++ "." ++ name
  | .lit text => text
  | .nullEx => "NULL"
  | .aliasEx inner name => inner.sqlText ++ " AS " ++ name
  | .binOp op lhs rhs => lhs.sqlText ++ " " ++ op ++ " " ++ rhs.sqlText

/-- `expr.find_all(Column)`: every column reference inside the expression,
as `(name, qualifier)` pairs in depth-first order. -/
def Expr.findColumns : Expr → List (String × String)
  | .column name tbl => [(name, tbl)]
  | .lit _ => []
  | .nullEx => []
  | .aliasEx inner _ => inner.findColumns
  | .binOp _ lhs rhs => lhs.findColumns ++ rhs.findColumns

/-- One `SELECT` branch: the table nodes found under its `FROM` clause
(`none` when there is no `FROM` clause at all), its join clauses, and its
output expression list. -/
structure SelectStmt where
  fromClause : Option (List TableExpr)
  joins : List JoinExpr
  expressions : List Expr
deriving DecidableEq, Repr

/-- What `create_stmt.find(Union)` / `create_stmt.find(Select)` see inside
a `CREATE` statement: a `UNION` body (whose `find_all(Select)` yields the
branches in order), a single `SELECT` body, or neither. -/
inductive ViewBody where
  | unionBody (branches : List SelectStmt)
  | selectBody (s : SelectStmt)
  | noBody
deriving DecidableEq, Repr

/-- A parsed statement, as classified by `parsed.find(Create)`: either a
`CREATE` statement (with its body), or a bare statement containing no
`CREATE` node (a bare `SELECT` or a bare `UNION`). -/
inductive Stmt where
  | create (body : ViewBody)
  | bareSelect (s : SelectStmt)
  | bareUnion (branches : List SelectStmt)
deriving DecidableEq, Repr

/-- `parsed.find(Create)`: the body of the `CREATE` statement when there
is one, else `none`. -/
def find_create : Stmt → Option ViewBody
  | .create body => some body
  | .bareSelect _ => none
  | .bareUnion _ => none

/-- One lineage record `{view_column, source_column, source_table}`.  All
three fields are always Python `str` values in the source, never
`None`/`NaN`. -/
structure LineageRecord where
  view_column : String
  source_column : String
  source_table : String
deriving DecidableEq, Repr

/-- `full_name.split('.')[-1]`: the text after the last dot (the whole
string when there is no dot). -/
def lastSegment (s : String) : String :=
  String.mk ((s.data.reverse.takeWhile (fun c => c ≠ '.')).reverse)

/-- `get_full_table_name`: dotted concatenation of all qualification parts
followed by the table identifier. -/
def get_full_table_name (t : TableExpr) : String :=
  String.intercalate "." (t.db ++ [t.this])

/-- Python `dict` assignment `m[k] = v`: overwrite the value in place when
the key exists, otherwise append the new pair (insertion order is
preserved). -/
def dictInsert (m : List (String × String)) (k v : String) : List (String × String) :=
  if m.any (fun p => p.1 = k) then
    m.map (fun p => if p.1 = k then (k, v) else p)
  else
    m ++ [(k, v)]

/-- Python `m.get(k, d)`: the value at `k`, or the default `d`. -/
def dictGet (m : List (String × String)) (k d : String) : String :=
  match m.find? (fun p => p.1 = k) with
  | some p => p.2
  | none => d

/-- `get_source_tables`: build the alias map of one `SELECT` branch.  For
each table under the `FROM` clause and each table-sourced join, bind the
explicit alias when present, otherwise the last dotted segment of the
fully qualified name, to that fully qualified name. -/
def get_source_tables (select_stmt : SelectStmt) : List (String × String) :=
  let tables :=
    match select_stmt.fromClause with
    | none => []
    | some tbls =>
        tbls.foldl (fun m table =>
          let full_name := get_full_table_name table
          match table.tblAlias with
          | some a => dictInsert m a full_name
          | none => dictInsert m (lastSegment full_name) full_name) []
  select_stmt.joins.foldl (fun m join =>
    match join.this with
    | some table =>
        let full_name := get_full_table_name table
        match table.tblAlias with
        | some a => dictInsert m a full_name
        | none => dictInsert m (lastSegment full_name) full_name
    | none => m) tables

/-- `process_select_expression`: one output expression, the branch's alias
map and the branch default table give zero or more lineage records.  The
output name is the alias when the expression is an `Alias` node, else its
`sql()` text; a literal or `NULL` inner expression is skipped; each column
reference resolves its qualifier through the map (falling back to the raw
qualifier text), or to the default table when unqualified. -/
def process_select_expression (expr : Expr) (tables : List (String × String))
    (default_table : String) : List LineageRecord :=
  let view_col :=
    match expr with
    | .aliasEx _ name => name
    | e => e.sqlText
  let expr_inner :=
    match expr with
    | .aliasEx inner _ => inner
    | e => e
  match expr_inner with
  | .lit _ => []
  | .nullEx => []
  | e =>
      e.findColumns.map (fun col =>
        let source_table :=
          if col.2 ≠ "" then dictGet tables col.2 col.2 else default_table
        { view_column := view_col, source_column := col.1, source_table := source_table })

/-- The per-branch work of `extract_column_lineage` (lines 104-112 /
115-122): build the alias map, pick `next(iter(tables.values()))` as the
default table (`"UNKNOWN"` when the map is empty) and concatenate the
records of every output expression in order. -/
def branch_lineage (select : SelectStmt) : List LineageRecord :=
  let tables := get_source_tables select
  let default_table :=
    match tables.head? with
    | some kv => kv.2
    | none => "UNKNOWN"
  select.expressions.foldl
    (fun acc expr => acc ++ process_select_expression expr tables default_table) []

/-- The concatenated `all_lineage` list before any pandas post-processing:
every branch of a `UNION` in `find_all(Select)` order, or the single
`SELECT`, or nothing. -/
def raw_lineage (body : ViewBody) : List LineageRecord :=
  match body with
  | .unionBody branches =>
      branches.foldl (fun acc select => acc ++ branch_lineage select) []
  | .selectBody select => branch_lineage select
  | .noBody => []

/-- `df.drop_duplicates()`: drop exact duplicate records, keeping the
first occurrence of each. -/
def dropDuplicates (l : List LineageRecord) : List LineageRecord :=
  l.foldl (fun acc r => if r ∈ acc then acc else acc ++ [r]) []

/-- `df['source_table'].fillna(df['source_table'].mode()[0])`: `fillna`
replaces only missing (`NaN`/`None`) values.  Every record's
`source_table` is built as a Python `str` (an alias-map value, the raw
qualifier text, the branch default, or the literal `"UNKNOWN"`), never
`None`, so the fill applies to no row and the column is unchanged. -/
def fillna_source_table (l : List LineageRecord) : List LineageRecord :=
  l.map (fun r => r)

/-- The three-field sort key ordering of
`df.sort_values(['view_column', 'source_table', 'source_column'])`:
lexicographic on `(view_column, source_table, source_column)` with
case-sensitive string comparison (Python compares strings as their
character-code sequences, modelled here on the underlying `List Char`). -/
def recLE (a b : LineageRecord) : Prop :=
  a.view_column.data < b.view_column.data ∨
    (a.view_column = b.view_column ∧
      (a.source_table.data < b.source_table.data ∨
        (a.source_table = b.source_table ∧
          (a.source_column.data < b.source_column.data ∨ a.source_column = b.source_column))))

instance : DecidableRel recLE := fun a b =>
  inferInstanceAs (Decidable (a.view_column.data < b.view_column.data ∨
    (a.view_column = b.view_column ∧
      (a.source_table.data < b.source_table.data ∨
        (a.source_table = b.source_table ∧
          (a.source_column.data < b.source_column.data ∨ a.source_column = b.source_column))))))

/-- `extract_column_lineage`, given the parse result: locate the `CREATE`
statement (empty result when there is none), aggregate the branches, then
post-process: the `notna` filter on `source_column` drops nothing (the
field is always a `str`), duplicates are dropped, the `fillna` step runs,
and the records are sorted by `(view_column, source_table, source_column)`;
an empty record list is returned as is. -/
def extract_from_parsed (parsed : Stmt) : List LineageRecord :=
  match find_create parsed with
  | none => []
  | some body =>
      let all_lineage := raw_lineage body
      if all_lineage.isEmpty then all_lineage
      else
        List.insertionSort recLE (fillna_source_table (dropDuplicates all_lineage))

/-- The outcome of `sqlglot.parse_one`: a parsed statement, or a raised
parse error. -/
inductive ParseOutcome where
  | parsed (stmt : Stmt)
  | parseError (msg : String)
deriving DecidableEq, Repr

/-- The body of `extract_column_lineage` before the `except` handler: a
parse error propagates as an exception (`Except.error`), otherwise the
extraction result is returned. -/
def extract_column_lineage_core (p : ParseOutcome) : Except String (List LineageRecord) :=
  match p with
  | .parseError msg => .error msg
  | .parsed stmt => .ok (extract_from_parsed stmt)

/-- `extract_column_lineage` as the caller sees it: the `except Exception`
handler prints a message and returns an empty DataFrame, so every internal
exception becomes an empty record list. -/
def extract_column_lineage (p : ParseOutcome) : List LineageRecord :=
  match extract_column_lineage_core p with
  | .ok records => records
  | .error _ => []

/-- The alias-map key a table reference is registered under: the explicit
alias when present, otherwise the last dotted segment of its fully
qualified name (both branches of `get_source_tables`). -/
def tableKey (t : TableExpr) : String :=
  match t.tblAlias with
  | some a => a
  | none => lastSegment (get_full_table_name t)

/-- Every table reference `get_source_tables` visits, in visit order: the
tables found under the `FROM` clause, then the table-sourced joins. -/
def allTableRefs (s : SelectStmt) : List TableExpr :=
  (match s.fromClause with
    | none => []
    | some tbls => tbls) ++ s.joins.filterMap (fun j => j.this)

/-- One `get_source_tables` step, factored out of both loops: bind the
table's key to its fully qualified name. -/
def insertTable (m : List (String × String)) (t : TableExpr) : List (String × String) :=
  dictInsert m (tableKey t) (get_full_table_name t)

/-- Key lookup in the alias map (Python `k in m` / `m[k]` combined):
`some` value at the key, or `none` when absent. -/
def lookupKey (m : List (String × String)) (k : String) : Option String :=
  (m.find? (fun p => p.1 = k)).map (fun p => p.2)

/-- `expr.this if isinstance(expr, Alias) else expr`: strip one explicit
output alias. -/
def unwrapAlias : Expr → Expr
  | .aliasEx inner _ => inner
  | e => e

/-- `isinstance(e, (Literal, Null))`: the skip test of
`process_select_expression`. -/
def isLiteralOrNullB : Expr → Bool
  | .lit _ => true
  | .nullEx => true
  | _ => false

/-! Concrete inputs for the scenario claims.  The SQL texts below are the
spec's scenario inputs; the `Stmt` values spell out the syntax tree the
SQL parser produces for each (which output expressions are aliased, which
column references carry a qualifier, which tables appear with which
alias). -/

def sql_simple_view : String :=
  "CREATE VIEW v AS SELECT s.id AS id, s.amount FROM sales s"

def sql_bare_select : String := "SELECT total FROM ledger"

def sql_wrapped_select : String := "CREATE VIEW v AS SELECT total FROM ledger"

/-- The `SELECT s.id AS id, s.amount FROM sales s` branch: first output
expression aliased, second a bare qualified column. -/
def sales_select : SelectStmt :=
  { fromClause := some [⟨[], "sales", some "s"⟩]
    joins := []
    expressions := [Expr.aliasEx (Expr.column "id" "s") "id", Expr.column "amount" "s"] }

/-- The `SELECT total FROM ledger` branch: a single unqualified column. -/
def ledger_select : SelectStmt :=
  { fromClause := some [⟨[], "ledger", none⟩]
    joins := []
    expressions := [Expr.column "total" ""] }

/-- Modelled from the spec: the external SQL parser (`sqlglot.parse_one`,
the §6 collaborator, not part of this repository's sources) restricted to
the scenario inputs above.  Each SQL text maps to the statement tree the
parser produces for it; a bare `SELECT` parses to a statement containing
no `CREATE` node. -/
def parse_one (sql_text : String) : ParseOutcome :=
  if sql_text = sql_simple_view then
    .parsed (Stmt.create (ViewBody.selectBody sales_select))
  else if sql_text = sql_bare_select then
    .parsed (Stmt.bareSelect ledger_select)
  else if sql_text = sql_wrapped_select then
    .parsed (Stmt.create (ViewBody.selectBody ledger_select))
  else
    .parseError "input SQL not modelled"

/-- End-to-end extraction from SQL text: parse, then extract. -/
def extract_column_lineage_from_text (sql_text : String) : List LineageRecord :=
  extract_column_lineage (parse_one sql_text)

/-- A branch with no `FROM` clause: its default table is the unresolved
marker `"UNKNOWN"`. -/
def no_from_select : SelectStmt :=
  { fromClause := none, joins := [], expressions := [Expr.column "x" ""] }

/-- A branch `SELECT a.y FROM t1 a`. -/
def t1_select : SelectStmt :=
  { fromClause := some [⟨[], "t1", some "a"⟩]
    joins := []
    expressions := [Expr.column "y" "a"] }

/-- A branch `SELECT a.x FROM t1 a`, duplicated across union arms in the
C4 counterexample. -/
def t1x_select : SelectStmt :=
  { fromClause := some [⟨[], "t1", some "a"⟩]
    joins := []
    expressions := [Expr.column "x" "a"] }

/-- A branch `FROM s1.t JOIN s2.t`: two unaliased tables whose last
segments collide on the key `t`. -/
def collide_select : SelectStmt :=
  { fromClause := some [⟨["s1"], "t", none⟩]
    joins := [⟨some ⟨["s2"], "t", none⟩⟩]
    expressions := [] }

/-- A branch `FROM orders o JOIN customers c` with distinct aliases. -/
def orders_customers_select : SelectStmt :=
  { fromClause := some [⟨[], "orders", some "o"⟩]
    joins := [⟨some ⟨[], "customers", some "c"⟩⟩]
    expressions := [] }

/-! Helper lemmas. -/

theorem string_data_inj {a b : String} (h : a.data = b.data) : a = b := by
  cases a
  cases b
  cases h
  rfl

theorem recLE_total (a b : LineageRecord) : recLE a b ∨ recLE b a := by
  unfold recLE
  rcases lt_trichotomy a.view_column.data b.view_column.data with h | h | h
  · exact Or.inl (Or.inl h)
  · have hv : a.view_column = b.view_column := string_data_inj h
    rcases lt_trichotomy a.source_table.data b.source_table.data with h2 | h2 | h2
    · exact Or.inl (Or.inr ⟨hv, Or.inl h2⟩)
    · have ht : a.source_table = b.source_table := string_data_inj h2
      rcases lt_trichotomy a.source_column.data b.source_column.data with h3 | h3 | h3
      · exact Or.inl (Or.inr ⟨hv, Or.inr ⟨ht, Or.inl h3⟩⟩)
      · exact Or.inl (Or.inr ⟨hv, Or.inr ⟨ht, Or.inr (string_data_inj h3)⟩⟩)
      · exact Or.inr (Or.inr ⟨hv.symm, Or.inr ⟨ht.symm, Or.inl h3⟩⟩)
    · exact Or.inr (Or.inr ⟨hv.symm, Or.inl h2⟩)
  · exact Or.inr (Or.inl h)

theorem recLE_trans (a b c : LineageRecord) (h1 : recLE a b) (h2 : recLE b c) :
    recLE a c := by
  unfold recLE at h1 h2 ⊢
  rcases h1 with h1 | ⟨e1, h1⟩
  · rcases h2 with h2 | ⟨e2, h2⟩
    · exact Or.inl (lt_trans h1 h2)
    · exact Or.inl (by rw [← e2]; exact h1)
  · rcases h2 with h2 | ⟨e2, h2⟩
    · exact Or.inl (by rw [e1]; exact h2)
    · refine Or.inr ⟨e1.trans e2, ?_⟩
      rcases h1 with h1 | ⟨t1, h1⟩
      · rcases h2 with h2 | ⟨t2, h2⟩
        · exact Or.inl (lt_trans h1 h2)
        · exact Or.inl (by rw [← t2]; exact h1)
      · rcases h2 with h2 | ⟨t2, h2⟩
        · exact Or.inl (by rw [t1]; exact h2)
        · refine Or.inr ⟨t1.trans t2, ?_⟩
          rcases h1 with h1 | h1
          · rcases h2 with h2 | h2
            · exact Or.inl (lt_trans h1 h2)
            · exact Or.inl (by rw [← h2]; exact h1)
          · rcases h2 with h2 | h2
            · exact Or.inl (by rw [h1]; exact h2)
            · exact Or.inr (h1.trans h2)

theorem length_foldl_append {α β : Type} (f : β → List α) (l : List β) (acc : List α) :
    (l.foldl (fun a b => a ++ f b) acc).length
      = acc.length + (l.map (fun b => (f b).length)).sum := by
  induction l generalizing acc with
  | nil => simp
  | cons b bs ih =>
      rw [List.foldl_cons, ih, List.map_cons, List.sum_cons, List.length_append]
      omega

theorem mem_foldl_dedup (l acc : List LineageRecord) (r : LineageRecord)
    (h : r ∈ l.foldl (fun acc r => if r ∈ acc then acc else acc ++ [r]) acc) :
    r ∈ acc ∨ r ∈ l := by
  induction l generalizing acc with
  | nil => exact Or.inl h
  | cons x xs ih =>
      rw [List.foldl_cons] at h
      rcases ih _ h with h' | h'
      · by_cases hx : x ∈ acc
        · rw [if_pos hx] at h'
          exact Or.inl h'
        · rw [if_neg hx] at h'
          rcases List.mem_append.mp h' with h'' | h''
          · exact Or.inl h''
          · rcases List.mem_singleton.mp h'' with rfl
            exact Or.inr (List.mem_cons_self _ _)
      · exact Or.inr (List.mem_cons_of_mem _ h')

theorem mem_of_mem_dropDuplicates (l : List LineageRecord) (r : LineageRecord)
    (h : r ∈ dropDuplicates l) : r ∈ l := by
  rcases mem_foldl_dedup l [] r h with h' | h'
  · cases h'
  · exact h'

theorem find?_append_of_some {α : Type} (p : α → Bool) (l1 l2 : List α) (a : α)
    (h : l1.find? p = some a) : (l1 ++ l2).find? p = some a := by
  induction l1 with
  | nil => cases h
  | cons x xs ih =>
      rw [List.cons_append]
      by_cases hx : p x
      · rw [List.find?_cons_of_pos _ hx] at h ⊢
        exact h
      · rw [List.find?_cons_of_neg _ (by simpa using hx)] at h ⊢
        exact ih h

theorem find?_append_of_none {α : Type} (p : α → Bool) (l1 l2 : List α)
    (h : l1.find? p = none) : (l1 ++ l2).find? p = l2.find? p := by
  induction l1 with
  | nil => rfl
  | cons x xs ih =>
      rw [List.cons_append]
      by_cases hx : p x
      · rw [List.find?_cons_of_pos _ hx] at h
        cases h
      · rw [List.find?_cons_of_neg _ (by simpa using hx)] at h ⊢
        exact ih h

theorem find?_map_update_self (m : List (String × String)) (k v : String)
    (hany : m.any (fun p => p.1 = k)) :
    (m.map (fun p => if p.1 = k then (k, v) else p)).find? (fun p => p.1 = k)
      = some (k, v) := by
  induction m with
  | nil => simp at hany
  | cons p m' ih =>
      rw [List.map_cons]
      by_cases hp : p.1 = k
      · rw [if_pos (by simpa using hp), List.find?_cons_of_pos _ (by simp)]
      · rw [if_neg (by simpa using hp), List.find?_cons_of_neg _ (by simpa using hp)]
        have hany' : m'.any (fun p => p.1 = k) := by
          rcases List.any_eq_true.mp hany with ⟨q, hq, hqk⟩
          rcases List.mem_cons.mp hq with rfl | hq'
          · exact absurd (of_decide_eq_true hqk) hp
          · exact List.any_eq_true.mpr ⟨q, hq', hqk⟩
        exact ih hany'

theorem find?_map_update_other (m : List (String × String)) (k v k' : String)
    (hne : k' ≠ k) :
    (m.map (fun p => if p.1 = k then (k, v) else p)).find? (fun p => p.1 = k')
      = m.find? (fun p => p.1 = k') := by
  induction m with
  | nil => rfl
  | cons p m' ih =>
      rw [List.map_cons]
      by_cases hp : p.1 = k
      · rw [if_pos (by simpa using hp),
          List.find?_cons_of_neg _ (by simpa using (Ne.symm hne)),
          List.find?_cons_of_neg _ (by simp only [decide_eq_true_eq]; rw [hp]; exact Ne.symm hne),
          ih]
      · rw [if_neg (by simpa using hp)]
        by_cases hp' : p.1 = k'
        · rw [List.find?_cons_of_pos _ (by simpa using hp'),
            List.find?_cons_of_pos _ (by simpa using hp')]
        · rw [List.find?_cons_of_neg _ (by simpa using hp'),
            List.find?_cons_of_neg _ (by simpa using hp'), ih]

theorem lookupKey_dictInsert_self (m : List (String × String)) (k v : String) :
    lookupKey (dictInsert m k v) k = some v := by
  unfold dictInsert
  by_cases hany : m.any (fun p => p.1 = k)
  · rw [if_pos hany]
    unfold lookupKey
    rw [find?_map_update_self m k v hany]
    rfl
  · rw [if_neg hany]
    unfold lookupKey
    have hnone : m.find? (fun p => p.1 = k) = none := by
      rw [List.find?_eq_none]
      intro q hq hqk
      exact hany (List.any_eq_true.mpr ⟨q, hq, hqk⟩)
    rw [find?_append_of_none _ _ _ hnone, List.find?_cons_of_pos _ (by simp)]
    rfl

theorem lookupKey_dictInsert_other (m : List (String × String)) (k v k' : String)
    (hne : k' ≠ k) : lookupKey (dictInsert m k v) k' = lookupKey m k' := by
  unfold dictInsert
  by_cases hany : m.any (fun p => p.1 = k)
  · rw [if_pos hany]
    unfold lookupKey
    rw [find?_map_update_other m k v k' hne]
  · rw [if_neg hany]
    unfold lookupKey
    rcases hfind : m.find? (fun p => p.1 = k') with _ | q
    · rw [find?_append_of_none _ _ _ hfind,
        List.find?_cons_of_neg _ (by simpa using (Ne.symm hne)), List.find?_nil, hfind]
    · rw [find?_append_of_some _ _ _ _ hfind, hfind]

theorem foldl_table_step_eq (tbls : List TableExpr) (init : List (String × String)) :
    tbls.foldl (fun m table =>
      let full_name := get_full_table_name table
      match table.tblAlias with
      | some a => dictInsert m a full_name
      | none => dictInsert m (lastSegment full_name) full_name) init
      = tbls.foldl insertTable init := by
  induction tbls generalizing init with
  | nil => rfl
  | cons t ts ih =>
      rw [List.foldl_cons, List.foldl_cons, ih]
      cases h : t.tblAlias <;> simp only [insertTable, tableKey, h]

theorem foldl_join_step_eq (joins : List JoinExpr) (init : List (String × String)) :
    joins.foldl (fun m join =>
      match join.this with
      | some table =>
          let full_name := get_full_table_name table
          match table.tblAlias with
          | some a => dictInsert m a full_name
          | none => dictInsert m (lastSegment full_name) full_name
      | none => m) init
      = (joins.filterMap (fun j => j.this)).foldl insertTable init := by
  induction joins generalizing init with
  | nil => rfl
  | cons j js ih =>
      rw [List.foldl_cons]
      cases hj : j.this with
      | none => simp only [hj, List.filterMap_cons, ih]
      | some t =>
          simp only [hj, List.filterMap_cons, List.foldl_cons, ih]
          cases h : t.tblAlias <;> simp only [insertTable, tableKey, h]

theorem get_source_tables_eq_foldl (s : SelectStmt) :
    get_source_tables s = (allTableRefs s).foldl insertTable [] := by
  unfold get_source_tables allTableRefs
  rw [List.foldl_append, foldl_join_step_eq]
  cases hf : s.fromClause with
  | none => rfl
  | some tbls =>
      dsimp only
      rw [foldl_table_step_eq]

theorem lookup_foldl_insertTable (ts : List TableExpr) (m : List (String × String))
    (k : String) :
    lookupKey (ts.foldl insertTable m) k =
      match ts.reverse.find? (fun t => tableKey t = k) with
      | some t => some (get_full_table_name t)
      | none => lookupKey m k := by
  induction ts generalizing m with
  | nil => rfl
  | cons t ts ih =>
      rw [List.foldl_cons, ih, List.reverse_cons]
      rcases hfind : ts.reverse.find? (fun t' => tableKey t' = k) with _ | t'
      · rw [find?_append_of_none _ _ _ hfind]
        by_cases hk : tableKey t = k
        · rw [List.find?_cons_of_pos _ (by simpa using hk)]
          unfold insertTable
          rw [← hk, lookupKey_dictInsert_self]
        · rw [List.find?_cons_of_neg _ (by simpa using hk), List.find?_nil]
          unfold insertTable
          rw [lookupKey_dictInsert_other _ _ _ _ (fun h => hk h.symm)]
      · rw [find?_append_of_some _ _ _ _ hfind]

theorem fillna_source_table_id (l : List LineageRecord) : fillna_source_table l = l := by
  simp [fillna_source_table]

/-! Claim theorems. -/

/-- Claim C1, counterexample: on the union of a `FROM`-less branch
(`SELECT x`) with `SELECT a.y FROM t1 a`, the record whose `source_table`
is the unresolved marker `"UNKNOWN"` survives normalization unchanged — it
is not rewritten to the most frequent resolved value `"t1"`. -/
theorem C1_unknown_marker_not_rewritten :
    extract_column_lineage (ParseOutcome.parsed
        (Stmt.create (ViewBody.unionBody [no_from_select, t1_select])))
      = [⟨"a.y", "y", "t1"⟩, ⟨"x", "x", "UNKNOWN"⟩]
    ∧ (⟨"x", "x", "t1"⟩ : LineageRecord) ∉ extract_column_lineage (ParseOutcome.parsed
        (Stmt.create (ViewBody.unionBody [no_from_select, t1_select]))) :=
  ⟨by decide, by decide⟩

/-- Claim C1, amended: normalization never rewrites a record's fields —
the `fillna` step fills only missing values and `source_table` is always a
string — so every record of the final output, `"UNKNOWN"`-marked records
included, occurs verbatim in the concatenated pre-normalization lineage. -/
theorem C1_normalization_preserves_records (body : ViewBody) (r : LineageRecord)
    (h : r ∈ extract_from_parsed (Stmt.create body)) : r ∈ raw_lineage body := by
  unfold extract_from_parsed at h
  dsimp only [find_create] at h
  by_cases he : (raw_lineage body).isEmpty
  · rw [if_pos he] at h
    exact h
  · rw [if_neg he] at h
    have h1 : r ∈ fillna_source_table (dropDuplicates (raw_lineage body)) :=
      (List.perm_insertionSort recLE _).mem_iff.mp h
    rw [fillna_source_table_id] at h1
    exact mem_of_mem_dropDuplicates _ _ h1

/-- Witness for C1's amended theorem at the concrete union input: the
`"UNKNOWN"` record is in the final output and in the raw lineage. -/
theorem C1_normalization_preserves_records_witness :
    ((⟨"x", "x", "UNKNOWN"⟩ : LineageRecord) ∈ extract_from_parsed
        (Stmt.create (ViewBody.unionBody [no_from_select, t1_select])))
    ∧ (⟨"x", "x", "UNKNOWN"⟩ : LineageRecord) ∈ raw_lineage
        (ViewBody.unionBody [no_from_select, t1_select]) :=
  ⟨by decide, C1_normalization_preserves_records _ _ (by decide)⟩

/-- Claim C2, counterexample: for
`CREATE VIEW v AS SELECT s.id AS id, s.amount FROM sales s`, the claimed
record `{amount, amount, sales}` is not in the output — the un-aliased
expression `s.amount` is named by its textual rendering. -/
theorem C2_simple_view_counterexample :
    (⟨"amount", "amount", "sales"⟩ : LineageRecord)
      ∉ extract_column_lineage_from_text sql_simple_view := by decide

/-- Claim C2, amended: extraction on the simple view returns exactly
`{id, id, sales}` and `{s.amount, amount, sales}` — the second
`view_column` is the expression's literal rendering `s.amount`, per the
output-column naming rule. -/
theorem C2_simple_view_extraction :
    extract_column_lineage_from_text sql_simple_view
      = [⟨"id", "id", "sales"⟩, ⟨"s.amount", "amount", "sales"⟩] := by decide

/-- Claim C3, counterexample: the bare `SELECT total FROM ledger` (no
`CREATE` wrapper) yields no record at all — the claimed
`{total, total, ledger}` is absent. -/
theorem C3_bare_select_counterexample :
    (⟨"total", "total", "ledger"⟩ : LineageRecord)
      ∉ extract_column_lineage_from_text sql_bare_select := by decide

/-- Claim C3, amended: a bare `SELECT` body without a `CREATE` statement
produces an empty result (the `find(Create)` guard returns early); the
scenario record is produced only when the same `SELECT` is wrapped in
`CREATE VIEW ... AS`. -/
theorem C3_bare_select_requires_create :
    extract_column_lineage_from_text sql_bare_select = []
    ∧ extract_column_lineage_from_text sql_wrapped_select
        = [⟨"total", "total", "ledger"⟩] :=
  ⟨by decide, by decide⟩

/-- Claim C4, counterexample: a union of two identical branches
`SELECT a.x FROM t1 a` yields one final record (deduplication), while each
branch extracted standalone yields one — the final count differs from the
sum of standalone counts. -/
theorem C4_union_count_counterexample :
    (extract_column_lineage (ParseOutcome.parsed
        (Stmt.create (ViewBody.unionBody [t1x_select, t1x_select])))).length
      ≠ (extract_column_lineage (ParseOutcome.parsed
            (Stmt.create (ViewBody.selectBody t1x_select)))).length
          + (extract_column_lineage (ParseOutcome.parsed
              (Stmt.create (ViewBody.selectBody t1x_select)))).length := by decide

/-- Claim C4, amended: before normalization the aggregated lineage of a
`UNION` is exactly the branch-by-branch concatenation, so its record count
equals the sum of the branches' record counts; deduplication may then
shrink the final output below the sum of standalone counts. -/
theorem C4_union_branch_count (branches : List SelectStmt) :
    (raw_lineage (ViewBody.unionBody branches)).length
      = (branches.map (fun b => (branch_lineage b).length)).sum := by
  show (branches.foldl (fun acc select => acc ++ branch_lineage select) []).length = _
  rw [length_foldl_append]
  simp

/-- Claim C5, counterexample: a parse failure returns the very same value
as a statement in which no view body is found — an empty record list — so
the caller cannot distinguish the two by the result. -/
theorem C5_parse_error_indistinguishable :
    extract_column_lineage (ParseOutcome.parseError "ParseError: invalid SQL")
      = extract_column_lineage (ParseOutcome.parsed (Stmt.create ViewBody.noBody)) := rfl

/-- Claim C5, amended: malformed SQL is reported only through a printed
message; the function's return value is an empty record list, identical to
the empty "no lineage found" result. -/
theorem C5_parse_failure_empty_result (msg : String) :
    extract_column_lineage (ParseOutcome.parseError msg) = []
    ∧ extract_column_lineage (ParseOutcome.parsed (Stmt.create ViewBody.noBody)) = [] :=
  ⟨rfl, rfl⟩

/-- Claim C6: an output expression that is, after unwrapping an explicit
alias, a literal constant or `NULL` makes the extractor emit zero
records, for any literal value, alias map and default table. -/
theorem C6_literal_skip (expr : Expr) (tables : List (String × String))
    (default_table : String) (h : isLiteralOrNullB (unwrapAlias expr) = true) :
    process_select_expression expr tables default_table = [] := by
  cases expr with
  | column name tbl => simp [unwrapAlias, isLiteralOrNullB] at h
  | lit text => rfl
  | nullEx => rfl
  | binOp op lhs rhs => simp [unwrapAlias, isLiteralOrNullB] at h
  | aliasEx inner name =>
      cases inner with
      | column n t => simp [unwrapAlias, isLiteralOrNullB] at h
      | lit text => rfl
      | nullEx => rfl
      | aliasEx i2 n2 => simp [unwrapAlias, isLiteralOrNullB] at h
      | binOp op lhs rhs => simp [unwrapAlias, isLiteralOrNullB] at h

/-- Witness for C6 at the aliased literal `1 AS one`. -/
theorem C6_literal_skip_witness :
    isLiteralOrNullB (unwrapAlias (Expr.aliasEx (Expr.lit "1") "one")) = true
    ∧ process_select_expression (Expr.aliasEx (Expr.lit "1") "one") [] "UNKNOWN" = [] :=
  ⟨rfl, C6_literal_skip _ _ _ rfl⟩

/-- Claim C7: extraction is deterministic — two runs on the identical SQL
text produce identical, identically ordered record lists (the embedding of
the extractor is a pure function of the input text). -/
theorem C7_extraction_deterministic (sql_text : String) :
    extract_column_lineage_from_text sql_text
      = extract_column_lineage_from_text sql_text := rfl

/-- Claim C8: every final record list is sorted ascending by the triple
`(view_column, source_table, source_column)` under case-sensitive
lexicographic string comparison. -/
theorem C8_extraction_sorted (p : ParseOutcome) :
    List.Sorted recLE (extract_column_lineage p) := by
  haveI : IsTotal LineageRecord recLE := ⟨recLE_total⟩
  haveI : IsTrans LineageRecord recLE := ⟨recLE_trans⟩
  cases p with
  | parseError msg => exact List.sorted_nil
  | parsed stmt =>
      cases stmt with
      | bareSelect s => exact List.sorted_nil
      | bareUnion bs => exact List.sorted_nil
      | create body =>
          show List.Sorted recLE (extract_from_parsed (Stmt.create body))
          unfold extract_from_parsed
          dsimp only [find_create]
          by_cases h : (raw_lineage body).isEmpty
          · rw [if_pos h, List.isEmpty_iff.mp h]
            exact List.sorted_nil
          · rw [if_neg h]
            exact List.sorted_insertionSort recLE _

/-- Claim C9, counterexample: in a branch `FROM s1.t JOIN s2.t` the two
unaliased tables collide on the key `t`; the alias map holds no key at all
resolving to the first table's fully qualified name `s1.t`. -/
theorem C9_alias_totality_counterexample :
    ((⟨["s1"], "t", none⟩ : TableExpr) ∈ allTableRefs collide_select)
    ∧ get_full_table_name ⟨["s1"], "t", none⟩ = "s1.t"
    ∧ ∀ kv ∈ get_source_tables collide_select, kv.2 ≠ "s1.t" :=
  ⟨by decide, by decide, by decide⟩

/-- Claim C9, amended: for every table reference of a branch's
`FROM`/`JOIN` clauses, the alias map binds its key (the explicit alias,
else the last dotted segment of the fully qualified name) to that table's
fully qualified name, provided no other table reference of the branch
binds the same key to a different name (Python dict last-write-wins
otherwise). -/
theorem C9_alias_resolution (s : SelectStmt) (t : TableExpr)
    (hmem : t ∈ allTableRefs s)
    (huniq : ∀ t' ∈ allTableRefs s, tableKey t' = tableKey t →
      get_full_table_name t' = get_full_table_name t) :
    lookupKey (get_source_tables s) (tableKey t) = some (get_full_table_name t) := by
  rw [get_source_tables_eq_foldl, lookup_foldl_insertTable]
  cases hfind : (allTableRefs s).reverse.find? (fun t' => tableKey t' = tableKey t) with
  | none =>
      exfalso
      rw [List.find?_eq_none] at hfind
      exact hfind t (List.mem_reverse.mpr hmem) (by simp)
  | some t'' =>
      dsimp only
      have hp : tableKey t'' = tableKey t := by simpa using List.find?_some hfind
      have hmem'' : t'' ∈ allTableRefs s :=
        List.mem_reverse.mp (List.mem_of_find?_eq_some hfind)
      rw [huniq t'' hmem'' hp]

/-- Witness for C9's amended theorem on
`FROM orders o JOIN customers c`: the key `c` resolves to `customers`. -/
theorem C9_alias_resolution_witness :
    ((⟨[], "customers", some "c"⟩ : TableExpr) ∈ allTableRefs orders_customers_select)
    ∧ lookupKey (get_source_tables orders_customers_select)
        (tableKey ⟨[], "customers", some "c"⟩)
        = some (get_full_table_name ⟨[], "customers", some "c"⟩) :=
  ⟨by decide, C9_alias_resolution _ _ (by decide) (by decide)⟩

/-- Claim C10: `extract_column_lineage` is total — the `except` handler
turns every internal exception (parse failure included) into an empty
record list, so every invocation returns a result. -/
theorem C10_internal_error_yields_empty (p : ParseOutcome) (msg : String)
    (h : extract_column_lineage_core p = Except.error msg) :
    extract_column_lineage p = [] := by
  unfold extract_column_lineage
  rw [h]

/-- Witness for C10 at a concrete parse failure. -/
theorem C10_internal_error_yields_empty_witness :
    extract_column_lineage_core (ParseOutcome.parseError "boom") = Except.error "boom"
    ∧ extract_column_lineage (ParseOutcome.parseError "boom") = [] :=
  ⟨rfl, C10_internal_error_yields_empty (ParseOutcome.parseError "boom") "boom" rfl⟩
